import Mathlib

/-!
Verification development for the bryology species pipeline (src/bry2.py).

The Python source is shallowly embedded: Python dicts become association
lists over a JSON-like value type, the two HTTP collaborators (GBIF taxon
lookup, IUCN assessment, occurrence search) become explicit oracles passed
as parameters, and the global mutable `processed_ids` set becomes an
explicit `visited` list threaded through the resolver and the driver loop.
-/

set_option maxHeartbeats 1000000

namespace Bryology

/-- Values stored in a species record dict: strings, booleans, and the
habitats list of strings (the only list-valued field in `bry2.py`). -/
inductive Val where
  | s : String → Val
  | b : Bool → Val
  | strs : List String → Val
  deriving DecidableEq, Repr

/-- Lookup in an association list with string keys (Python dict access). -/
def alook {α : Type} (m : List (String × α)) (k : String) : Option α :=
  (m.find? (fun p => p.1 == k)).map (fun p => p.2)

/-- Key membership (`k in d`). -/
def ahas {α : Type} (m : List (String × α)) (k : String) : Bool :=
  m.any (fun p => p.1 == k)

/-- Key deletion (`del d[k]`). -/
def adel {α : Type} (m : List (String × α)) (k : String) : List (String × α) :=
  m.filter (fun p => p.1 != k)

/-- Assignment (`d[k] = v`): replace in place if present, else append. -/
def aset {α : Type} (m : List (String × α)) (k : String) (v : α) :
    List (String × α) :=
  if m.any (fun p => p.1 == k) then
    m.map (fun p => if p.1 == k then (k, v) else p)
  else
    m ++ [(k, v)]

/-- A Python dict with string keys, as an association list (keys unique in
all dicts the source constructs). -/
abbrev Dict := List (String × Val)

/-- `d.get(k)` / `d[k]`: first binding of `k`. -/
def dictGet (m : Dict) (k : String) : Option Val :=
  alook m k

/-- `k in d`. -/
def dictHasKey (m : Dict) (k : String) : Bool :=
  ahas m k

/-- `del d[k]` (the source only deletes keys that are present, so the
no-op on an absent key is unreachable there). -/
def dictDel (m : Dict) (k : String) : Dict :=
  adel m k

/-- `d[k] = v`: replace in place if present, else append. -/
def dictSet (m : Dict) (k : String) (v : Val) : Dict :=
  aset m k v

/-- `d1.update(d2)`: set every binding of `d2` into `d1`, left to right. -/
def dictUpdate (m other : Dict) : Dict :=
  other.foldl (fun acc p => dictSet acc p.1 p.2) m

/-- `d.get(k, default)` where the source expects a string value; every
field the source reads this way is set as a string by the code that built
the dict, so the non-string fallback is unreachable. -/
def getStr (m : Dict) (k : String) (dflt : String) : String :=
  match dictGet m k with
  | some (Val.s v) => v
  | _ => dflt

/-- Python `str.startswith`. -/
def pyStartsWith (s p : String) : Bool :=
  p.toList.isPrefixOf s.toList

/-- Substring occurrence on character lists (Python `needle in hay`). -/
def containsSubL (needle : List Char) : List Char → Bool
  | [] => needle.isEmpty
  | c :: rest => needle.isPrefixOf (c :: rest) || containsSubL needle rest

/-- ASCII lowercasing of one character (the statuses this is applied to
are ASCII). -/
def asciiLower (c : Char) : Char :=
  if c.isUpper then Char.ofNat (c.toNat + 32) else c

def lowerChars (cs : List Char) : List Char :=
  cs.map asciiLower

/-- Accumulator pass for `str.split()`: split on whitespace runs and drop
empty pieces. -/
def wsTokensGo : List Char → List Char → List (List Char)
  | acc, [] => if acc.isEmpty then [] else [acc.reverse]
  | acc, c :: rest =>
    if c.isWhitespace then
      if acc.isEmpty then wsTokensGo [] rest else acc.reverse :: wsTokensGo [] rest
    else wsTokensGo (c :: acc) rest

/-- Python `str.split()` with no argument: split on whitespace runs,
dropping empty pieces. -/
def pyTokens (s : String) : List String :=
  (wsTokensGo [] s.toList).map (fun cs => String.mk cs)

/-! ## Discovered-year parsing (src/bry2.py lines 85-95) -/

/-- A word character for the regex `\b` boundary (ASCII approximation of
Python's `\w`). -/
def isWordChar (c : Char) : Bool :=
  c.isAlphanum || c == '_'

/-- `re.search(r"\b\d{4}\b$", published)` on a character list with any
single trailing newline already removed: the last four characters are
digits and the character before them (if any) is not a word character. -/
def endsWithYear (cs : List Char) : Option String :=
  if cs.length < 4 then none
  else
    let pre := cs.take (cs.length - 4)
    let last4 := cs.drop (cs.length - 4)
    if last4.all Char.isDigit && !((pre.getLast?.map isWordChar).getD false) then
      some (String.mk last4)
    else none

/-- Python's `$` (no MULTILINE) also matches just before a single trailing
newline. -/
def stripFinalNewline (cs : List Char) : List Char :=
  if cs.getLast? == some '\n' then cs.dropLast else cs

/-- `re.search(r"\b\d{4}\b$", published)`, returning the matched year. -/
def endYear (s : String) : Option String :=
  endsWithYear (stripFinalNewline s.toList)

/-- First match of `re.findall(r"\((\d+)\)", published)`: scan for a `(`
followed by a nonempty digit run followed by `)`; return the digit run. -/
def findParenDigits : List Char → Option String
  | [] => none
  | c :: rest =>
    if c == '(' then
      let ds := rest.takeWhile Char.isDigit
      match rest.drop ds.length with
      | ')' :: _ => if ds.isEmpty then findParenDigits rest else some (String.mk ds)
      | _ => findParenDigits rest
    else findParenDigits rest

/-- Lines 86-95: prefer a 4-digit token anchored at the end of the
citation, else the first parenthesized digit run, else "Unknown". -/
def parseDiscovered (published : String) : String :=
  match endYear published with
  | some y => y
  | none =>
    match findParenDigits published.toList with
    | some d => d
    | none => "Unknown"

/-! ## The GBIF collaborator and the taxon resolver (lines 49-111) -/

/-- The fields of a raw GBIF taxon response that `get_species_data` reads;
`none` models an absent key. -/
structure GbifData where
  taxonomicStatus : Option String
  acceptedKey : Option Nat
  species : Option String
  genus : Option String
  family : Option String
  order : Option String
  class_ : Option String
  scientificName : Option String
  vernacularName : Option String
  publishedIn : Option String
  deriving DecidableEq, Repr

/-- The GBIF taxon lookup service: a finite table from taxonID to
response; a missing id models a non-200 response. -/
abbrev Api := List (Nat × GbifData)

/-- `GET /v1/species/(id)`. -/
def fetchGbif (api : Api) (id : Nat) : Option GbifData :=
  (api.find? (fun p => p.1 == id)).map (fun p => p.2)

/-- `"synonym" in data.get("taxonomicStatus", "").lower()`. -/
def isSynonymStatus (data : GbifData) : Bool :=
  containsSubL "synonym".toList (lowerChars (data.taxonomicStatus.getD "").toList)

/-- The dict literal returned at lines 97-108. -/
def mkRecord (taxon_id : Nat) (data : GbifData) : Dict :=
  let published := data.publishedIn.getD "Unknown"
  [("taxonID", Val.s (toString taxon_id)),
   ("species", Val.s (data.species.getD "Unknown")),
   ("genus", Val.s (data.genus.getD "Unknown")),
   ("family", Val.s (data.family.getD "Unknown")),
   ("order", Val.s (data.order.getD "Unknown")),
   ("class", Val.s (data.class_.getD "Unknown")),
   ("scientificName", Val.s (data.scientificName.getD "Unknown")),
   ("vernacularName", Val.s (data.vernacularName.getD "Unknown")),
   ("publishedIn", Val.s published),
   ("discovered", Val.s (parseDiscovered published))]

/-- Number of api keys not yet visited; the resolver's recursion measure. -/
def unvisitedCount (api : Api) (visited : List Nat) : Nat :=
  ((api.map Prod.fst).filter (fun k => decide (k ∉ visited))).length

theorem length_filter_le_of_imp {α : Type} (l : List α) (p q : α → Bool)
    (hpq : ∀ a, p a = true → q a = true) :
    (l.filter p).length ≤ (l.filter q).length := by
  induction l with
  | nil => simp
  | cons b t ih =>
    by_cases hp : p b = true
    · simp [List.filter_cons, hp, hpq b hp]
      omega
    · simp only [Bool.not_eq_true] at hp
      by_cases hq : q b = true
      · simp [List.filter_cons, hp, hq]
        omega
      · simp only [Bool.not_eq_true] at hq
        simp [List.filter_cons, hp, hq, ih]

theorem length_filter_lt_of_mem {α : Type} {l : List α} {p q : α → Bool}
    (hpq : ∀ a, p a = true → q a = true)
    {a : α} (ha : a ∈ l) (hqa : q a = true) (hpa : p a = false) :
    (l.filter p).length < (l.filter q).length := by
  induction l with
  | nil => cases ha
  | cons b t ih =>
    rcases List.mem_cons.mp ha with hb | ht
    · subst hb
      have hle := length_filter_le_of_imp t p q hpq
      simp [List.filter_cons, hqa, hpa]
      omega
    · by_cases hp : p b = true
      · simp [List.filter_cons, hp, hpq b hp]
        exact ih ht
      · simp only [Bool.not_eq_true] at hp
        by_cases hq : q b = true
        · simp [List.filter_cons, hp, hq]
          have := ih ht
          omega
        · simp only [Bool.not_eq_true] at hq
          simpa [List.filter_cons, hp, hq] using ih ht

theorem mem_keys_of_fetch {api : Api} {t : Nat} {d : GbifData}
    (h : fetchGbif api t = some d) : t ∈ api.map Prod.fst := by
  unfold fetchGbif at h
  cases hf : api.find? (fun p => p.1 == t) with
  | none => rw [hf] at h; cases h
  | some p =>
    have hmem := List.mem_of_find?_eq_some hf
    have hkey := List.find?_some hf
    simp only [beq_iff_eq] at hkey
    subst hkey
    exact List.mem_map_of_mem Prod.fst hmem

theorem unvisitedCount_lt {api : Api} {visited : List Nat} {t : Nat}
    (ht : t ∈ api.map Prod.fst) (hv : t ∉ visited) :
    unvisitedCount api (t :: visited) < unvisitedCount api visited := by
  apply length_filter_lt_of_mem (a := t) _ ht
  · simp [hv]
  · simp
  · intro a hpa
    simp only [decide_eq_true_eq, List.mem_cons, not_or] at hpa ⊢
    exact hpa.2

/-- The body of `get_species_data` (lines 49-111), structurally recursive
on a fuel bound so that the kernel can evaluate it; `unvisitedCount` api
keys plus one is always enough fuel (`resolveFuel_adequate`), which is
exactly the source's termination argument: every recursive step first
marks the current id visited, and recursion only continues into ids whose
fetch succeeds. -/
def resolveFuel (api : Api) : Nat → Nat → List Nat → Option Dict × List Nat
  | 0, _, visited => (none, visited)
  | fuel + 1, taxon_id, visited =>
    if taxon_id ∈ visited then
      (none, visited)
    else
      match fetchGbif api taxon_id with
      | none => (none, taxon_id :: visited)
      | some data =>
        if isSynonymStatus data then
          match data.acceptedKey with
          | some accepted_key => resolveFuel api fuel accepted_key (taxon_id :: visited)
          | none => (none, taxon_id :: visited)
        else
          (some (mkRecord taxon_id data), taxon_id :: visited)

theorem resolveFuel_adequate (api : Api) :
    ∀ f1 f2 taxon_id visited, unvisitedCount api visited < f1 →
      unvisitedCount api visited < f2 →
      resolveFuel api f1 taxon_id visited = resolveFuel api f2 taxon_id visited := by
  intro f1
  induction f1 with
  | zero => intro f2 t v h1 _; omega
  | succ n ih =>
    intro f2 t v h1 h2
    match f2, h2 with
    | m + 1, h2 =>
      show resolveFuel api (n + 1) t v = resolveFuel api (m + 1) t v
      unfold resolveFuel
      by_cases hv : t ∈ v
      · simp [hv]
      · simp only [hv, if_false]
        cases hfetch : fetchGbif api t with
        | none => rfl
        | some data =>
          by_cases hsyn : isSynonymStatus data
          · simp only [hsyn, if_true]
            cases hak : data.acceptedKey with
            | none => rfl
            | some ak =>
              have hlt := unvisitedCount_lt (mem_keys_of_fetch hfetch) hv
              exact ih m ak (t :: v) (by omega) (by omega)
          · simp [hsyn]

/-- `get_species_data` (lines 49-111): the global `processed_ids` set is
threaded explicitly as `visited`; the result pairs the returned record
(`none` for Python `None`) with the updated visited set.  The unused
`synonym` parameter of the source is dropped. -/
def get_species_data (api : Api) (taxon_id : Nat) (visited : List Nat) :
    Option Dict × List Nat :=
  resolveFuel api (unvisitedCount api visited + 1) taxon_id visited

/-- The recursion equation of the source function: `get_species_data`
satisfies its own defining equations, fuel being invisible. -/
theorem get_species_data_eq (api : Api) (taxon_id : Nat) (visited : List Nat) :
    get_species_data api taxon_id visited =
      (if taxon_id ∈ visited then
        (none, visited)
      else
        match fetchGbif api taxon_id with
        | none => (none, taxon_id :: visited)
        | some data =>
          if isSynonymStatus data then
            match data.acceptedKey with
            | some accepted_key =>
              get_species_data api accepted_key (taxon_id :: visited)
            | none => (none, taxon_id :: visited)
          else
            (some (mkRecord taxon_id data), taxon_id :: visited)) := by
  show resolveFuel api (unvisitedCount api visited + 1) taxon_id visited = _
  unfold resolveFuel
  by_cases hv : taxon_id ∈ visited
  · simp [hv]
  · simp only [hv, if_false]
    cases hfetch : fetchGbif api taxon_id with
    | none => rfl
    | some data =>
      by_cases hsyn : isSynonymStatus data
      · simp only [hsyn, if_true]
        cases hak : data.acceptedKey with
        | none => rfl
        | some ak =>
          have hlt := unvisitedCount_lt (mem_keys_of_fetch hfetch) hv
          exact resolveFuel_adequate api (unvisitedCount api visited)
            (unvisitedCount api (taxon_id :: visited) + 1) ak (taxon_id :: visited)
            (by omega) (by omega)
      · simp [hsyn]

/-! ## Occurrence summarizer (lines 113-134) -/

/-- The body of the `for occurrence in occurrences` loop at lines 130-133:
`set.add` is insertion at the end if absent. -/
def addHabitat (habitats : List String) (country : String) : List String :=
  if country != "Unknown" then
    (if habitats.contains country then habitats else habitats ++ [country])
  else habitats

/-- `extract_habitats` (lines 125-134): collect the distinct non-"Unknown"
`country` values of the occurrence dicts. -/
def extract_habitats (occurrences : List Dict) : List String :=
  occurrences.foldl (fun habitats occurrence =>
    addHabitat habitats (getStr occurrence "country" "Unknown")) []

/-! ## Species filter (lines 136-142) -/

/-- `is_valid_species` (lines 136-142). -/
def is_valid_species (species_info : Dict) : Bool :=
  let scientific_name := getStr species_info "scientificName" ""
  !(pyStartsWith scientific_name "SH" || scientific_name.toList.any Char.isDigit)

/-! ## Conservation enricher (lines 155-239) and its caller-side merge -/

/-- The dict `get_iucn_data` returns on success (lines 228-235); the HTTP
interaction itself is an oracle `String → Option ConsInfo`. -/
structure ConsInfo where
  assessment_url : String
  assessment_year : String
  possibly_extinct : Bool
  possibly_extinct_in_the_wild : Bool
  authority : String
  vernacularName : String
  deriving DecidableEq, Repr

def consToDict (ci : ConsInfo) : Dict :=
  [("assessment_url", Val.s ci.assessment_url),
   ("assessment_year", Val.s ci.assessment_year),
   ("possibly_extinct", Val.b ci.possibly_extinct),
   ("possibly_extinct_in_the_wild", Val.b ci.possibly_extinct_in_the_wild),
   ("authority", Val.s ci.authority),
   ("vernacularName", Val.s ci.vernacularName)]

/-- Python truthiness of an optional dict: `None` and the empty dict are
falsy. -/
def pyTruthy : Option Dict → Bool
  | none => false
  | some d => !d.isEmpty

/-- Lines 289-292 of `main`: conditionally drop the enricher's
`vernacularName`, then `species_info.update(conservation_data)` when the
conservation data is truthy. -/
def mergeConservation (species_info : Dict) (conservation_data : Option Dict) : Dict :=
  let conservation_data :=
    if !(dictHasKey species_info "vernacularName") && pyTruthy conservation_data then
      conservation_data.map (fun d => dictDel d "vernacularName")
    else conservation_data
  if pyTruthy conservation_data then
    dictUpdate species_info (conservation_data.getD [])
  else species_info

/-! ## Taxonomic hierarchy (lines 306-319) -/

/-- `if k not in m: m[k] = d` for a nested hierarchy level. -/
def setDefault {α : Type} (m : List (String × α)) (k : String) (d : α) :
    List (String × α) :=
  if m.any (fun p => p.1 == k) then m else m ++ [(k, d)]

/-- In-place mutation of the value at key `k`. -/
def modifyKey {α : Type} (m : List (String × α)) (k : String) (f : α → α) :
    List (String × α) :=
  m.map (fun p => if p.1 == k then (p.1, f p.2) else p)

/-- Genus leaves: the keys of the innermost dict (values are all `{}`). -/
abbrev GenusSet := List String

abbrev FamMap := List (String × GenusSet)

abbrev OrdMap := List (String × FamMap)

/-- `taxonomic_hierarchy`: class → order → family → genus presence tree. -/
abbrev Hier := List (String × OrdMap)

/-- `if genus_name not in ...: ...[genus_name] = {}` (lines 318-319). -/
def genusInsert (gs : GenusSet) (g : String) : GenusSet :=
  if gs.contains g then gs else gs ++ [g]

def famInsert (fm : FamMap) (f g : String) : FamMap :=
  modifyKey (setDefault fm f []) f (fun gs => genusInsert gs g)

def ordInsert (om : OrdMap) (o f g : String) : OrdMap :=
  modifyKey (setDefault om o []) o (fun fm => famInsert fm f g)

/-- Lines 312-319: ensure each level of the class/order/family/genus path
exists, creating empty levels on demand and reusing existing prefixes. -/
def hierInsert (h : Hier) (c o f g : String) : Hier :=
  modifyKey (setDefault h c []) c (fun om => ordInsert om o f g)

def famHasPath (fm : FamMap) (f g : String) : Bool :=
  match alook fm f with
  | none => false
  | some gs => gs.contains g

def ordHasPath (om : OrdMap) (o f g : String) : Bool :=
  match alook om o with
  | none => false
  | some fm => famHasPath fm f g

/-- The class/order/family/genus path is present in the hierarchy tree. -/
def hierHasPath (h : Hier) (c o f g : String) : Bool :=
  match alook h c with
  | none => false
  | some om => ordHasPath om o f g

/-! ## Aggregation merge and the pipeline driver (lines 251-333) -/

/-- Lines 321-323: `del` of class, order and family.  The record is
appended by reference before the deletions, so the stored record is the
stripped one. -/
def stripRecord (species_info : Dict) : Dict :=
  dictDel (dictDel (dictDel species_info "class") "order") "family"

/-- Lines 304-323: append the (stripped, by aliasing) record to the flat
list and insert its class/order/family/genus path into the hierarchy. -/
def mergeRecord (species_data : List Dict) (h : Hier) (species_info : Dict) :
    List Dict × Hier :=
  let class_name := getStr species_info "class" "Unknown"
  let order_name := getStr species_info "order" "Unknown"
  let family_name := getStr species_info "family" "Unknown"
  let genus_name := getStr species_info "genus" "Unknown"
  (species_data ++ [stripRecord species_info],
   hierInsert h class_name order_name family_name genus_name)

/-- The mutable state of one `main` run: the global `processed_ids` set,
the loaded-and-growing aggregation state, the `conservation_data` local
(`none` while still unassigned, modeling Python's unbound local), the
count `j` of records merged this run, and the list of flush events (each
the species list and hierarchy written at that point). -/
structure RunState where
  visited : List Nat
  species_data : List Dict
  hierarchy : Hier
  consVar : Option (Option ConsInfo)
  j : Nat
  flushes : List (List Dict × Hier)
  deriving Repr

/-- The body of one loop iteration after the resolver has returned (lines
277-328), operating on a state whose `visited` was already updated by the
resolver call.  The boolean is `true` when the iteration raises the
`UnboundLocalError` of reading `conservation_data` before any assignment
(lines 289/291), which aborts the whole run. -/
def processResolved (iucn : String → Option ConsInfo) (occ : Nat → List Dict)
    (st : RunState) (taxon_id : Nat) :
    Option Dict → RunState × Bool
  | none => (st, false)
  | some species_info =>
    if !(is_valid_species species_info) then (st, false)
    else
      let consVar :=
        if (pyTokens (getStr species_info "scientificName" "Unknown")).length > 2 then
          some (iucn (getStr species_info "scientificName" "Unknown"))
        else st.consVar
      match consVar with
      | none => (st, true)
      | some conservation_data =>
        let st' := { st with consVar := some conservation_data }
        let species_info :=
          mergeConservation species_info (conservation_data.map consToDict)
        let habitats := extract_habitats (occ taxon_id)
        let species_info := dictSet species_info "habitats" (Val.strs habitats)
        if dictGet species_info "species" != some (Val.s "Unknown")
            && dictGet species_info "family" != some (Val.s "Unknown")
            && dictGet species_info "order" != some (Val.s "Unknown")
            && dictGet species_info "family" != some (Val.s "Unknown") then
          let merged := mergeRecord st'.species_data st'.hierarchy species_info
          let j' := st'.j + 1
          let flushes' :=
            if j' % 50 == 0 then st'.flushes ++ [(merged.1, merged.2)] else st'.flushes
          ({ st' with species_data := merged.1, hierarchy := merged.2,
                      j := j', flushes := flushes' }, false)
        else (st', false)

/-- One iteration of the `for taxon_id in taxonomy_ids` loop (lines
272-329): resolve against the shared visited set, then run the rest of
the body. -/
def processItem (api : Api) (iucn : String → Option ConsInfo)
    (occ : Nat → List Dict) (st : RunState) (taxon_id : Nat) :
    RunState × Bool :=
  let r := get_species_data api taxon_id st.visited
  processResolved iucn occ { st with visited := r.2 } taxon_id r.1

/-- The driver loop; stops early when an iteration raises. -/
def driverLoop (api : Api) (iucn : String → Option ConsInfo)
    (occ : Nat → List Dict) (st : RunState) :
    List Nat → RunState × Bool
  | [] => (st, false)
  | taxon_id :: ids =>
    let r := processItem api iucn occ st taxon_id
    if r.2 then (r.1, true) else driverLoop api iucn occ r.1 ids

/-- The unconditional end-of-batch write at lines 332-333. -/
def finalFlush (st : RunState) : RunState :=
  { st with flushes := st.flushes ++ [(st.species_data, st.hierarchy)] }

/-- `main` (lines 251-333): empty id list exits before any write; the
batch is capped at 300 ids; the loaded aggregation state is a parameter;
a normal end of batch appends one unconditional flush. -/
def bryMain (api : Api) (iucn : String → Option ConsInfo)
    (occ : Nat → List Dict) (taxonomy_ids : List Nat)
    (sd0 : List Dict) (h0 : Hier) : RunState × Bool :=
  let st0 : RunState :=
    { visited := [], species_data := sd0, hierarchy := h0,
      consVar := none, j := 0, flushes := [] }
  if taxonomy_ids.isEmpty then (st0, false)
  else
    let r := driverLoop api iucn occ st0 (taxonomy_ids.take 300)
    if r.2 then (r.1, true) else (finalFlush r.1, false)

/-! ## Association-list lemmas -/

section AssocLemmas

variable {α : Type}

theorem alook_nil (k : String) : alook ([] : List (String × α)) k = none := rfl

theorem alook_cons (p : String × α) (t : List (String × α)) (k : String) :
    alook (p :: t) k = if p.1 == k then some p.2 else alook t k := by
  unfold alook
  by_cases hp : (p.1 == k) = true
  · simp [List.find?, hp]
  · have hp' : (p.1 == k) = false := by simpa using hp
    simp [List.find?, hp']

theorem ahas_cons (p : String × α) (t : List (String × α)) (k : String) :
    ahas (p :: t) k = ((p.1 == k) || ahas t k) := by
  unfold ahas
  simp [List.any_cons]

theorem ahas_eq_isSome_alook (m : List (String × α)) (k : String) :
    ahas m k = (alook m k).isSome := by
  induction m with
  | nil => rfl
  | cons p t ih =>
    rw [ahas_cons, alook_cons]
    by_cases hp : (p.1 == k) = true
    · simp [hp]
    · have hp' : (p.1 == k) = false := by simpa using hp
      simp [hp', ih]

theorem alook_eq_none_of_ahas_false (m : List (String × α)) (k : String)
    (h : ahas m k = false) : alook m k = none := by
  have heq := ahas_eq_isSome_alook m k
  rw [h] at heq
  cases hl : alook m k
  · rfl
  · rw [hl] at heq; simp at heq

theorem alook_append_single_self (m : List (String × α)) (k : String) (v : α)
    (h : ahas m k = false) : alook (m ++ [(k, v)]) k = some v := by
  induction m with
  | nil => simp [alook_cons]
  | cons p t ih =>
    rw [ahas_cons, Bool.or_eq_false_iff] at h
    rw [List.cons_append, alook_cons]
    simp only [h.1, Bool.false_eq_true, if_false]
    exact ih h.2

theorem alook_append_single_ne (m : List (String × α)) (k k' : String) (v : α)
    (hne : k' ≠ k) : alook (m ++ [(k, v)]) k' = alook m k' := by
  induction m with
  | nil =>
    simp [alook_cons, alook_nil, beq_eq_false_iff_ne.mpr (fun h => hne h.symm)]
  | cons p t ih =>
    rw [List.cons_append, alook_cons, alook_cons, ih]

theorem alook_map_replace_self (m : List (String × α)) (k : String) (v : α)
    (h : ahas m k = true) :
    alook (m.map (fun p => if p.1 == k then (k, v) else p)) k = some v := by
  induction m with
  | nil => simp [ahas] at h
  | cons p t ih =>
    by_cases hp : (p.1 == k) = true
    · simp only [List.map_cons, hp, if_true]
      rw [alook_cons]
      simp
    · have hp' : (p.1 == k) = false := by simpa using hp
      rw [ahas_cons] at h
      simp only [hp', Bool.false_or] at h
      simp only [List.map_cons, hp', Bool.false_eq_true, if_false]
      rw [alook_cons]
      simp only [hp', Bool.false_eq_true, if_false]
      exact ih h

theorem alook_map_replace_ne (m : List (String × α)) (k k' : String) (v : α)
    (hne : k' ≠ k) :
    alook (m.map (fun p => if p.1 == k then (k, v) else p)) k' = alook m k' := by
  induction m with
  | nil => rfl
  | cons p t ih =>
    by_cases hp : (p.1 == k) = true
    · have hp1 : p.1 = k := beq_iff_eq.mp hp
      have hpk' : (p.1 == k') = false := by
        rw [hp1]; exact beq_eq_false_iff_ne.mpr (fun h => hne h.symm)
      have hkk' : (k == k') = false := by rw [← hp1]; exact hpk'
      simp only [List.map_cons, hp, if_true]
      rw [alook_cons, alook_cons]
      simp only [hpk', hkk', Bool.false_eq_true, if_false]
      exact ih
    · have hp' : (p.1 == k) = false := by simpa using hp
      simp only [List.map_cons, hp', Bool.false_eq_true, if_false]
      rw [alook_cons, alook_cons, ih]

theorem alook_aset_self (m : List (String × α)) (k : String) (v : α) :
    alook (aset m k v) k = some v := by
  unfold aset
  cases h : m.any (fun p => p.1 == k) with
  | true =>
    simp only [if_true]
    exact alook_map_replace_self m k v h
  | false =>
    simp only [Bool.false_eq_true, if_false]
    exact alook_append_single_self m k v h

theorem alook_aset_ne (m : List (String × α)) (k k' : String) (v : α)
    (hne : k' ≠ k) : alook (aset m k v) k' = alook m k' := by
  unfold aset
  cases h : m.any (fun p => p.1 == k) with
  | true =>
    simp only [if_true]
    exact alook_map_replace_ne m k k' v hne
  | false =>
    simp only [Bool.false_eq_true, if_false]
    exact alook_append_single_ne m k k' v hne

theorem ahas_aset (m : List (String × α)) (k k' : String) (v : α) :
    ahas (aset m k v) k' = true ↔ k' = k ∨ ahas m k' = true := by
  by_cases hne : k' = k
  · subst hne
    rw [ahas_eq_isSome_alook, alook_aset_self]
    simp
  · rw [ahas_eq_isSome_alook, ahas_eq_isSome_alook, alook_aset_ne m k k' v hne]
    simp [hne]

theorem alook_adel_ne (m : List (String × α)) (k k' : String) (hne : k' ≠ k) :
    alook (adel m k) k' = alook m k' := by
  unfold adel
  induction m with
  | nil => rfl
  | cons p t ih =>
    by_cases hp : (p.1 != k) = true
    · simp only [List.filter_cons, hp, if_true]
      rw [alook_cons, alook_cons, ih]
    · have hpk : p.1 = k := by simpa using hp
      have hq : (p.1 == k') = false := by
        rw [hpk]; exact beq_eq_false_iff_ne.mpr (fun h => hne h.symm)
      simp only [List.filter_cons, hp, Bool.false_eq_true, if_false]
      rw [alook_cons]
      simp only [hq, Bool.false_eq_true, if_false, ih]

theorem ahas_adel_self (m : List (String × α)) (k : String) :
    ahas (adel m k) k = false := by
  unfold ahas adel
  rw [Bool.eq_false_iff]
  intro h
  obtain ⟨p, hp, hpk⟩ := List.any_eq_true.mp h
  have := List.of_mem_filter hp
  simp only [bne_iff_ne, ne_eq] at this
  exact this (beq_iff_eq.mp hpk)

theorem ahas_adel_ne (m : List (String × α)) (k k' : String) (hne : k' ≠ k) :
    ahas (adel m k) k' = ahas m k' := by
  rw [ahas_eq_isSome_alook, ahas_eq_isSome_alook, alook_adel_ne m k k' hne]

theorem alook_setDefault_self (m : List (String × α)) (k : String) (d : α) :
    alook (setDefault m k d) k = some ((alook m k).getD d) := by
  unfold setDefault
  cases h : m.any (fun p => p.1 == k) with
  | true =>
    simp only [if_true]
    have hs : (alook m k).isSome := by rw [← ahas_eq_isSome_alook]; exact h
    obtain ⟨x, hx⟩ := Option.isSome_iff_exists.mp hs
    simp [hx]
  | false =>
    simp only [Bool.false_eq_true, if_false]
    rw [alook_append_single_self m k d h, alook_eq_none_of_ahas_false m k h]
    rfl

theorem alook_setDefault_ne (m : List (String × α)) (k k' : String) (d : α)
    (hne : k' ≠ k) : alook (setDefault m k d) k' = alook m k' := by
  unfold setDefault
  cases h : m.any (fun p => p.1 == k) with
  | true => simp only [if_true]
  | false =>
    simp only [Bool.false_eq_true, if_false]
    exact alook_append_single_ne m k k' d hne

theorem alook_modifyKey_self (m : List (String × α)) (k : String) (f : α → α) :
    alook (modifyKey m k f) k = (alook m k).map f := by
  unfold modifyKey
  induction m with
  | nil => rfl
  | cons p t ih =>
    by_cases hp : (p.1 == k) = true
    · simp only [List.map_cons, hp, if_true]
      rw [alook_cons, alook_cons]
      simp [hp]
    · have hp' : (p.1 == k) = false := by simpa using hp
      simp only [List.map_cons, hp', Bool.false_eq_true, if_false]
      rw [alook_cons, alook_cons]
      simp only [hp', Bool.false_eq_true, if_false]
      exact ih

theorem alook_modifyKey_ne (m : List (String × α)) (k k' : String) (f : α → α)
    (hne : k' ≠ k) : alook (modifyKey m k f) k' = alook m k' := by
  unfold modifyKey
  induction m with
  | nil => rfl
  | cons p t ih =>
    by_cases hp : (p.1 == k) = true
    · have hp1 : p.1 = k := beq_iff_eq.mp hp
      have hpk' : (p.1 == k') = false := by
        rw [hp1]; exact beq_eq_false_iff_ne.mpr (fun h => hne h.symm)
      have hkk' : (k == k') = false := by rw [← hp1]; exact hpk'
      simp only [List.map_cons, hp, if_true]
      rw [alook_cons, alook_cons]
      simp only [hpk', hkk', Bool.false_eq_true, if_false]
      exact ih
    · have hp' : (p.1 == k) = false := by simpa using hp
      simp only [List.map_cons, hp', Bool.false_eq_true, if_false]
      rw [alook_cons, alook_cons, ih]

end AssocLemmas

/-! ## Dictionary lemmas (instances of the association-list lemmas) -/

theorem dictGet_set_self (m : Dict) (k : String) (v : Val) :
    dictGet (dictSet m k v) k = some v :=
  alook_aset_self m k v

theorem dictGet_set_ne (m : Dict) (k k' : String) (v : Val) (hne : k' ≠ k) :
    dictGet (dictSet m k v) k' = dictGet m k' :=
  alook_aset_ne m k k' v hne

theorem dictHasKey_set (m : Dict) (k k' : String) (v : Val) :
    dictHasKey (dictSet m k v) k' = true ↔ k' = k ∨ dictHasKey m k' = true :=
  ahas_aset m k k' v

theorem dictHasKey_del_self (m : Dict) (k : String) :
    dictHasKey (dictDel m k) k = false :=
  ahas_adel_self m k

theorem dictGet_del_ne (m : Dict) (k k' : String) (hne : k' ≠ k) :
    dictGet (dictDel m k) k' = dictGet m k' :=
  alook_adel_ne m k k' hne

theorem dictHasKey_del_ne (m : Dict) (k k' : String) (hne : k' ≠ k) :
    dictHasKey (dictDel m k) k' = dictHasKey m k' :=
  ahas_adel_ne m k k' hne

/-! ## Resolver lemmas -/

theorem resolveFuel_visited_mono (api : Api) :
    ∀ fuel taxon_id visited, visited ⊆ (resolveFuel api fuel taxon_id visited).2 := by
  intro fuel
  induction fuel with
  | zero => intro t v; exact fun a ha => ha
  | succ n ih =>
    intro t v
    unfold resolveFuel
    by_cases hv : t ∈ v
    · simp only [hv, if_true]
      exact fun a ha => ha
    · simp only [hv, if_false]
      cases hfetch : fetchGbif api t with
      | none => exact List.subset_cons_of_subset t (fun a ha => ha)
      | some data =>
        by_cases hsyn : isSynonymStatus data
        · simp only [hsyn, if_true]
          cases hak : data.acceptedKey with
          | none => exact List.subset_cons_of_subset t (fun a ha => ha)
          | some ak =>
            exact fun a ha => ih ak (t :: v) (List.mem_cons_of_mem t ha)
        · simp only [hsyn, Bool.false_eq_true, if_false]
          exact List.subset_cons_of_subset t (fun a ha => ha)

theorem resolveFuel_mem_visited (api : Api) :
    ∀ fuel taxon_id visited, 0 < fuel →
      taxon_id ∈ (resolveFuel api fuel taxon_id visited).2 := by
  intro fuel
  match fuel with
  | 0 => intro t v h; omega
  | n + 1 =>
    intro t v _
    unfold resolveFuel
    by_cases hv : t ∈ v
    · simp [hv]
    · simp only [hv, if_false]
      cases hfetch : fetchGbif api t with
      | none => exact List.mem_cons_self t v
      | some data =>
        by_cases hsyn : isSynonymStatus data
        · simp only [hsyn, if_true]
          cases hak : data.acceptedKey with
          | none => exact List.mem_cons_self t v
          | some ak =>
            exact resolveFuel_visited_mono api n ak (t :: v) (List.mem_cons_self t v)
        · simp only [hsyn, Bool.false_eq_true, if_false]
          exact List.mem_cons_self t v

/-- Line 62-64: a taxonID already in `processed_ids` short-circuits to
`None`, leaving the visited set unchanged. -/
theorem get_species_data_visited (api : Api) (taxon_id : Nat) (visited : List Nat)
    (h : taxon_id ∈ visited) : get_species_data api taxon_id visited = (none, visited) := by
  unfold get_species_data resolveFuel
  simp [h]

theorem get_species_data_visited_mono (api : Api) (taxon_id : Nat)
    (visited : List Nat) : visited ⊆ (get_species_data api taxon_id visited).2 :=
  resolveFuel_visited_mono api (unvisitedCount api visited + 1) taxon_id visited

theorem get_species_data_mem_visited (api : Api) (taxon_id : Nat)
    (visited : List Nat) : taxon_id ∈ (get_species_data api taxon_id visited).2 :=
  resolveFuel_mem_visited api (unvisitedCount api visited + 1) taxon_id visited
    (Nat.succ_pos _)

/-- A set of taxonIDs closed under synonym pointers: every member's fetch
succeeds, is a synonym, and its accepted key stays in the set.  A synonym
cycle `X → ... → X` is such a set. -/
def SynClosed (api : Api) (S : List Nat) : Prop :=
  ∀ x ∈ S, ∃ d, fetchGbif api x = some d ∧ isSynonymStatus d = true ∧
    ∃ ak, d.acceptedKey = some ak ∧ ak ∈ S

theorem resolveFuel_synClosed_none (api : Api) (S : List Nat) (hS : SynClosed api S) :
    ∀ fuel taxon_id visited, unvisitedCount api visited < fuel → taxon_id ∈ S →
      (resolveFuel api fuel taxon_id visited).1 = none := by
  intro fuel
  induction fuel with
  | zero => intro t v h _; omega
  | succ n ih =>
    intro t v hcount ht
    unfold resolveFuel
    by_cases hv : t ∈ v
    · simp [hv]
    · simp only [hv, if_false]
      obtain ⟨d, hfetch, hsyn, ak, hak, hakS⟩ := hS t ht
      rw [hfetch]
      simp only [hsyn, if_true]
      rw [hak]
      have hlt := unvisitedCount_lt (mem_keys_of_fetch hfetch) hv
      exact ih ak (t :: v) (by omega) hakS

theorem get_species_data_synClosed_none (api : Api) (S : List Nat)
    (hS : SynClosed api S) (taxon_id : Nat) (visited : List Nat)
    (ht : taxon_id ∈ S) : (get_species_data api taxon_id visited).1 = none :=
  resolveFuel_synClosed_none api S hS (unvisitedCount api visited + 1) taxon_id
    visited (Nat.lt_succ_self _) ht

/-! ## Hierarchy lemmas -/

theorem contains_genusInsert_self (gs : GenusSet) (g : String) :
    (genusInsert gs g).contains g = true := by
  unfold genusInsert
  by_cases hm : g ∈ gs
  · simp [hm]
  · simp [hm]

theorem contains_genusInsert_mono (gs : GenusSet) (g g' : String)
    (h : gs.contains g' = true) : (genusInsert gs g).contains g' = true := by
  have hm : g' ∈ gs := by simpa using h
  unfold genusInsert
  by_cases hc : g ∈ gs
  · simp [hc, hm]
  · simp [hc, hm]

theorem famHasPath_famInsert_self (fm : FamMap) (f g : String) :
    famHasPath (famInsert fm f g) f g = true := by
  unfold famHasPath famInsert
  rw [alook_modifyKey_self, alook_setDefault_self]
  exact contains_genusInsert_self _ g

theorem famHasPath_famInsert_mono (fm : FamMap) (f g f' g' : String)
    (h : famHasPath fm f' g' = true) :
    famHasPath (famInsert fm f g) f' g' = true := by
  unfold famHasPath famInsert at *
  by_cases hf : f' = f
  · subst hf
    rw [alook_modifyKey_self, alook_setDefault_self]
    cases hl : alook fm f' with
    | none => rw [hl] at h; simp at h
    | some gs =>
      rw [hl] at h
      simp only [Option.map_some', Option.getD_some]
      exact contains_genusInsert_mono gs g g' h
  · rw [alook_modifyKey_ne _ _ _ _ hf, alook_setDefault_ne _ _ _ _ hf]
    exact h

theorem ordHasPath_ordInsert_self (om : OrdMap) (o f g : String) :
    ordHasPath (ordInsert om o f g) o f g = true := by
  unfold ordHasPath ordInsert
  rw [alook_modifyKey_self, alook_setDefault_self]
  exact famHasPath_famInsert_self _ f g

theorem ordHasPath_ordInsert_mono (om : OrdMap) (o f g o' f' g' : String)
    (h : ordHasPath om o' f' g' = true) :
    ordHasPath (ordInsert om o f g) o' f' g' = true := by
  unfold ordHasPath ordInsert at *
  by_cases ho : o' = o
  · subst ho
    rw [alook_modifyKey_self, alook_setDefault_self]
    cases hl : alook om o' with
    | none => rw [hl] at h; simp at h
    | some fm =>
      rw [hl] at h
      simp only [Option.map_some', Option.getD_some]
      exact famHasPath_famInsert_mono fm f g f' g' h
  · rw [alook_modifyKey_ne _ _ _ _ ho, alook_setDefault_ne _ _ _ _ ho]
    exact h

theorem hierHasPath_hierInsert_self (h : Hier) (c o f g : String) :
    hierHasPath (hierInsert h c o f g) c o f g = true := by
  unfold hierHasPath hierInsert
  rw [alook_modifyKey_self, alook_setDefault_self]
  exact ordHasPath_ordInsert_self _ o f g

theorem hierHasPath_hierInsert_mono (h : Hier) (c o f g c' o' f' g' : String)
    (hp : hierHasPath h c' o' f' g' = true) :
    hierHasPath (hierInsert h c o f g) c' o' f' g' = true := by
  unfold hierHasPath hierInsert at *
  by_cases hc : c' = c
  · subst hc
    rw [alook_modifyKey_self, alook_setDefault_self]
    cases hl : alook h c' with
    | none => rw [hl] at hp; simp at hp
    | some om =>
      rw [hl] at hp
      simp only [Option.map_some', Option.getD_some]
      exact ordHasPath_ordInsert_mono om o f g o' f' g' hp
  · rw [alook_modifyKey_ne _ _ _ _ hc, alook_setDefault_ne _ _ _ _ hc]
    exact hp

theorem genusInsert_pair (g1 g2 : String) (hne : g1 ≠ g2) :
    genusInsert [g1] g2 = [g1, g2] := by
  unfold genusInsert
  have hne' : ¬ g2 = g1 := fun h => hne h.symm
  simp [hne']

theorem hierInsert_single (c o f g : String) :
    hierInsert [] c o f g = [(c, [(o, [(f, [g])])])] := by
  unfold hierInsert ordInsert famInsert genusInsert setDefault modifyKey
  simp

theorem hierInsert_twice_shared (c o f g1 g2 : String) (hne : g1 ≠ g2) :
    hierInsert (hierInsert [] c o f g1) c o f g2
      = [(c, [(o, [(f, [g1, g2])])])] := by
  rw [hierInsert_single]
  unfold hierInsert ordInsert famInsert setDefault modifyKey
  simp [genusInsert_pair g1 g2 hne]

/-! ## Habitat extraction lemmas -/

theorem mem_addHabitat (hs : List String) (c x : String) :
    x ∈ addHabitat hs c ↔ x ∈ hs ∨ (c ≠ "Unknown" ∧ x = c) := by
  unfold addHabitat
  by_cases hc : c = "Unknown"
  · simp [hc]
  · have hbne : (c != "Unknown") = true := bne_iff_ne.mpr hc
    simp only [hbne, if_true]
    by_cases hmem : hs.contains c = true
    · simp only [hmem, if_true]
      constructor
      · intro h; exact Or.inl h
      · intro h
        rcases h with h | ⟨_, hx⟩
        · exact h
        · subst hx
          exact List.elem_iff.mp hmem
    · have hmem' : hs.contains c = false := by simpa using hmem
      simp only [hmem', Bool.false_eq_true, if_false]
      rw [List.mem_append, List.mem_singleton]
      constructor
      · intro h
        rcases h with h | h
        · exact Or.inl h
        · exact Or.inr ⟨hc, h⟩
      · intro h
        rcases h with h | ⟨_, hx⟩
        · exact Or.inl h
        · exact Or.inr hx

theorem mem_foldl_addHabitat (occs : List Dict) :
    ∀ hs x, (x ∈ occs.foldl (fun h o => addHabitat h (getStr o "country" "Unknown")) hs
      ↔ x ∈ hs ∨ (x ≠ "Unknown" ∧ ∃ o ∈ occs, getStr o "country" "Unknown" = x)) := by
  induction occs with
  | nil => simp
  | cons o t ih =>
    intro hs x
    rw [List.foldl_cons, ih, mem_addHabitat]
    constructor
    · intro h
      rcases h with (h | ⟨hne, hx⟩) | ⟨hne, o', ho', hx⟩
      · exact Or.inl h
      · exact Or.inr ⟨hx ▸ hne, o, List.mem_cons_self o t, hx.symm⟩
      · exact Or.inr ⟨hne, o', List.mem_cons_of_mem o ho', hx⟩
    · intro h
      rcases h with h | ⟨hne, o', ho', hx⟩
      · exact Or.inl (Or.inl h)
      · rcases List.mem_cons.mp ho' with rfl | ho'
        · exact Or.inl (Or.inr ⟨hx ▸ hne, hx.symm⟩)
        · exact Or.inr ⟨hne, o', ho', hx⟩

theorem mem_extract_habitats (occs : List Dict) (x : String) :
    x ∈ extract_habitats occs
      ↔ x ≠ "Unknown" ∧ ∃ o ∈ occs, getStr o "country" "Unknown" = x := by
  unfold extract_habitats
  rw [mem_foldl_addHabitat]
  simp

theorem nodup_addHabitat (hs : List String) (c : String) (h : hs.Nodup) :
    (addHabitat hs c).Nodup := by
  unfold addHabitat
  by_cases hc : (c != "Unknown") = true
  · simp only [hc, if_true]
    by_cases hm : c ∈ hs
    · have hcont : hs.contains c = true := by simpa using hm
      simp only [hcont, if_true]
      exact h
    · have hcont : hs.contains c = false := by
        rw [Bool.eq_false_iff]
        intro hx
        exact hm (by simpa using hx)
      simp only [hcont, Bool.false_eq_true, if_false]
      have heq : hs ++ [c] = hs ++ c :: [] := rfl
      rw [heq, List.nodup_middle, List.nodup_cons, List.append_nil]
      exact ⟨hm, h⟩
  · have hc' : (c != "Unknown") = false := by simpa using hc
    simp [hc', h]

theorem nodup_extract_habitats (occs : List Dict) :
    (extract_habitats occs).Nodup := by
  unfold extract_habitats
  have : ∀ hs : List String, hs.Nodup →
      (occs.foldl (fun h o => addHabitat h (getStr o "country" "Unknown")) hs).Nodup := by
    induction occs with
    | nil => intro hs h; simpa using h
    | cons o t ih =>
      intro hs h
      rw [List.foldl_cons]
      exact ih _ (nodup_addHabitat hs _ h)
  exact this [] List.nodup_nil

/-! ## Driver lemmas -/

theorem processResolved_visited (iucn : String → Option ConsInfo)
    (occ : Nat → List Dict) (st : RunState) (t : Nat) (x : Option Dict) :
    (processResolved iucn occ st t x).1.visited = st.visited := by
  cases x with
  | none => rfl
  | some si =>
    simp only [processResolved]
    split
    · rfl
    · split
      · rfl
      · split
        · rfl
        · rfl

theorem processResolved_flush_inv (iucn : String → Option ConsInfo)
    (occ : Nat → List Dict) (st : RunState) (t : Nat) (x : Option Dict)
    (h : st.flushes.length = st.j / 50) :
    (processResolved iucn occ st t x).1.flushes.length
      = (processResolved iucn occ st t x).1.j / 50 := by
  cases x with
  | none => exact h
  | some si =>
    simp only [processResolved]
    split
    · exact h
    · split
      · exact h
      · split
        · by_cases hd : (st.j + 1) % 50 = 0
          · have hb : ((st.j + 1) % 50 == 0) = true := by simpa using hd
            simp only [hb, if_true, List.length_append, List.length_cons,
              List.length_nil]
            rw [Nat.succ_div]
            have hdvd : 50 ∣ st.j + 1 := Nat.dvd_of_mod_eq_zero hd
            simp [hdvd, h]
          · have hb : ((st.j + 1) % 50 == 0) = false := by simpa using hd
            simp only [hb, Bool.false_eq_true, if_false]
            rw [Nat.succ_div]
            have hdvd : ¬ (50 ∣ st.j + 1) := by omega
            simp [hdvd, h]
        · exact h

theorem processItem_visited_mono (api : Api) (iucn : String → Option ConsInfo)
    (occ : Nat → List Dict) (st : RunState) (t : Nat) :
    st.visited ⊆ (processItem api iucn occ st t).1.visited := by
  unfold processItem
  rw [processResolved_visited]
  exact get_species_data_visited_mono api t st.visited

theorem processItem_flush_inv (api : Api) (iucn : String → Option ConsInfo)
    (occ : Nat → List Dict) (st : RunState) (t : Nat)
    (h : st.flushes.length = st.j / 50) :
    (processItem api iucn occ st t).1.flushes.length
      = (processItem api iucn occ st t).1.j / 50 :=
  processResolved_flush_inv iucn occ _ t _ h

theorem driverLoop_visited_mono (api : Api) (iucn : String → Option ConsInfo)
    (occ : Nat → List Dict) :
    ∀ ids st, st.visited ⊆ (driverLoop api iucn occ st ids).1.visited := by
  intro ids
  induction ids with
  | nil => intro st; exact fun a ha => ha
  | cons i ids ih =>
    intro st
    unfold driverLoop
    cases he : (processItem api iucn occ st i).2 with
    | true =>
      simp only [he, if_true]
      exact processItem_visited_mono api iucn occ st i
    | false =>
      simp only [he, Bool.false_eq_true, if_false]
      exact fun a ha => ih _ (processItem_visited_mono api iucn occ st i ha)

theorem driverLoop_flush_inv (api : Api) (iucn : String → Option ConsInfo)
    (occ : Nat → List Dict) :
    ∀ ids st, st.flushes.length = st.j / 50 →
      (driverLoop api iucn occ st ids).1.flushes.length
        = (driverLoop api iucn occ st ids).1.j / 50 := by
  intro ids
  induction ids with
  | nil => intro st h; exact h
  | cons i ids ih =>
    intro st h
    unfold driverLoop
    cases he : (processItem api iucn occ st i).2 with
    | true =>
      simp only [he, if_true]
      exact processItem_flush_inv api iucn occ st i h
    | false =>
      simp only [he, Bool.false_eq_true, if_false]
      exact ih _ (processItem_flush_inv api iucn occ st i h)

/-! ## Concrete fixtures for witnesses and counterexamples -/

/-- An IUCN oracle that never finds an assessment. -/
def iucn0 : String → Option ConsInfo := fun _ => none

/-- An occurrence oracle returning no occurrences. -/
def occ0 : Nat → List Dict := fun _ => []

/-- A complete accepted taxon record with a 3-token scientific name. -/
def accData : GbifData :=
  { taxonomicStatus := some "ACCEPTED", acceptedKey := none,
    species := some "s", genus := some "g", family := some "f",
    order := some "o", class_ := some "c", scientificName := some "Aa bb cc",
    vernacularName := some "v", publishedIn := some "Hedw., Sp. Musc. Frond.: 1801" }

/-- A synonym record pointing at taxon 1. -/
def synData : GbifData :=
  { accData with taxonomicStatus := some "HETEROTYPIC_SYNONYM",
                 acceptedKey := some 1, scientificName := some "Bb cc dd" }

def apiC1 : Api := [(1, accData), (2, synData)]

/-- A taxon that declares itself a synonym of itself. -/
def selfSynData : GbifData :=
  { accData with taxonomicStatus := some "SYNONYM", acceptedKey := some 3 }

def apiC2 : Api := [(3, selfSynData)]

def api51 : Api := (List.range 51).map (fun k => (k + 1, accData))

def ids51 : List Nat := (List.range 51).map (fun k => k + 1)

/-! ## Claim theorems -/

/-- C1: for an accepted taxon A and a synonym taxon B whose record points
to A, resolving B (with neither A nor B visited yet) returns exactly the
record of resolving A directly, and that record's taxonID field is A's
identifier, not B's. -/
theorem synonym_resolves_to_accepted_record
    (api : Api) (a b : Nat) (visited : List Nat) (dA dB : GbifData)
    (hB : fetchGbif api b = some dB)
    (hBsyn : isSynonymStatus dB = true)
    (hBacc : dB.acceptedKey = some a)
    (hA : fetchGbif api a = some dA)
    (hAacc : isSynonymStatus dA = false)
    (hbv : b ∉ visited) (hav : a ∉ visited) :
    (get_species_data api b visited).1 = (get_species_data api a visited).1 ∧
    (get_species_data api b visited).1 = some (mkRecord a dA) ∧
    dictGet (mkRecord a dA) "taxonID" = some (Val.s (toString a)) := by
  have hab : a ≠ b := by
    intro h
    subst h
    rw [hA] at hB
    cases hB
    rw [hAacc] at hBsyn
    cases hBsyn
  have h1 : get_species_data api b visited = get_species_data api a (b :: visited) := by
    rw [get_species_data_eq]
    rw [if_neg hbv, hB]
    simp only [hBsyn, if_true]
    rw [hBacc]
  have hav2 : a ∉ b :: visited := by
    intro h
    rcases List.mem_cons.mp h with h | h
    · exact hab h
    · exact hav h
  have h2 : get_species_data api a (b :: visited)
      = (some (mkRecord a dA), a :: b :: visited) := by
    rw [get_species_data_eq]
    rw [if_neg hav2, hA]
    simp only [hAacc, Bool.false_eq_true, if_false]
  have h3 : get_species_data api a visited = (some (mkRecord a dA), a :: visited) := by
    rw [get_species_data_eq]
    rw [if_neg hav, hA]
    simp only [hAacc, Bool.false_eq_true, if_false]
  refine ⟨?_, ?_, rfl⟩
  · rw [h1, h2, h3]
  · rw [h1, h2]

/-- Witness for C1 at a concrete two-taxon API. -/
theorem synonym_resolves_to_accepted_record_witness :
    (get_species_data apiC1 2 []).1 = (get_species_data apiC1 1 []).1 ∧
    (get_species_data apiC1 2 []).1 = some (mkRecord 1 accData) ∧
    dictGet (mkRecord 1 accData) "taxonID" = some (Val.s (toString 1)) :=
  synonym_resolves_to_accepted_record apiC1 1 2 [] accData synData
    rfl (by decide) rfl rfl (by decide) (by decide) (by decide)

/-- C2: resolution of any taxon inside a synonym cycle (a set of taxa each
declaring a synonym pointer into the set — in particular a taxon pointing
at itself, directly or transitively) returns null; termination itself is
by construction, mirroring the source's argument that each taxonID enters
the visited set before recursion and a revisited taxonID short-circuits
to null. -/
theorem synonym_cycle_returns_none
    (api : Api) (S : List Nat) (taxon_id : Nat) (visited : List Nat)
    (hS : SynClosed api S) (ht : taxon_id ∈ S) :
    (get_species_data api taxon_id visited).1 = none ∧
    (∀ t v, t ∈ v → get_species_data api t v = (none, v)) :=
  ⟨get_species_data_synClosed_none api S hS taxon_id visited ht,
   fun t v h => get_species_data_visited api t v h⟩

/-- Witness for C2 at a taxon that is (as the GBIF backbone sometimes
contains) its own synonym. -/
theorem synonym_cycle_returns_none_witness :
    (get_species_data apiC2 3 []).1 = none ∧
    get_species_data apiC2 7 [7] = (none, [7]) := by
  have h := synonym_cycle_returns_none apiC2 [3] 3 []
    (by
      intro x hx
      have hx3 : x = 3 := by simpa using hx
      subst hx3
      exact ⟨selfSynData, rfl, by decide, 3, rfl, by decide⟩)
    (by decide)
  exact ⟨h.1, h.2 7 [7] (by decide)⟩

/-- C3: the visited set is shared process-wide: a taxonID already in the
visited set resolves to null immediately and leaves the set unchanged;
any taxonID passed to the resolver is in the visited set afterwards; the
driver loop only ever grows the visited set (it is never reset between
batch items); hence a taxonID visited at any point resolves to null after
any further prefix of the batch has been processed. -/
theorem visited_set_shared_across_batch
    (api : Api) (iucn : String → Option ConsInfo) (occ : Nat → List Dict) :
    (∀ t v, t ∈ v → get_species_data api t v = (none, v)) ∧
    (∀ t v, t ∈ (get_species_data api t v).2) ∧
    (∀ ids st, st.visited ⊆ (driverLoop api iucn occ st ids).1.visited) ∧
    (∀ ids st t, t ∈ st.visited →
      (get_species_data api t ((driverLoop api iucn occ st ids).1.visited)).1
        = none) := by
  refine ⟨fun t v h => get_species_data_visited api t v h,
          fun t v => get_species_data_mem_visited api t v,
          driverLoop_visited_mono api iucn occ, ?_⟩
  intro ids st t ht
  rw [get_species_data_visited api t _ (driverLoop_visited_mono api iucn occ ids st ht)]

/-- Witness for C3: taxon 2 is already visited, so a direct resolution and
a resolution after one more driver item both return null. -/
theorem visited_set_shared_across_batch_witness :
    get_species_data apiC1 2 [2] = (none, [2]) ∧
    (get_species_data apiC1 2
      ((driverLoop apiC1 iucn0 occ0
        { visited := [2], species_data := [], hierarchy := [],
          consVar := none, j := 0, flushes := [] } [1]).1.visited)).1 = none := by
  have h := visited_set_shared_across_batch apiC1 iucn0 occ0
  exact ⟨h.1 2 [2] (by decide), h.2.2.2 [1] _ 2 (by decide)⟩

/-- C4: merging an admitted record appends the stripped record (the
source appends the dict by reference and then deletes `class`, `order`
and `family` from it, so the stored record is the stripped one) and
inserts the record's class → order → family → genus path into the
hierarchy: the path is present afterwards, existing paths survive
(prefixes are reused), two inserts sharing class/order/family with
distinct genus yield a single shared path with two genus leaves, and the
stripped record keeps its genus. -/
theorem merge_builds_hierarchy_and_strips
    (sd : List Dict) (h : Hier) (si : Dict) (c₀ o₀ f₀ g₀ : String)
    (c o f g1 g2 : String) (hne : g1 ≠ g2) :
    hierHasPath (mergeRecord sd h si).2 (getStr si "class" "Unknown")
      (getStr si "order" "Unknown") (getStr si "family" "Unknown")
      (getStr si "genus" "Unknown") = true ∧
    (hierHasPath h c₀ o₀ f₀ g₀ = true →
      hierHasPath (mergeRecord sd h si).2 c₀ o₀ f₀ g₀ = true) ∧
    hierInsert (hierInsert [] c o f g1) c o f g2
      = [(c, [(o, [(f, [g1, g2])])])] ∧
    (mergeRecord sd h si).1 = sd ++ [stripRecord si] ∧
    dictHasKey (stripRecord si) "family" = false ∧
    dictHasKey (stripRecord si) "order" = false ∧
    dictHasKey (stripRecord si) "class" = false ∧
    dictGet (stripRecord si) "genus" = dictGet si "genus" := by
  refine ⟨hierHasPath_hierInsert_self h _ _ _ _,
          fun hp => hierHasPath_hierInsert_mono h _ _ _ _ c₀ o₀ f₀ g₀ hp,
          hierInsert_twice_shared c o f g1 g2 hne, rfl, ?_, ?_, ?_, ?_⟩
  · exact dictHasKey_del_self _ "family"
  · unfold stripRecord
    rw [dictHasKey_del_ne _ "family" "order" (by decide)]
    exact dictHasKey_del_self _ "order"
  · unfold stripRecord
    rw [dictHasKey_del_ne _ "family" "class" (by decide),
        dictHasKey_del_ne _ "order" "class" (by decide)]
    exact dictHasKey_del_self _ "class"
  · unfold stripRecord
    rw [dictGet_del_ne _ "family" "genus" (by decide),
        dictGet_del_ne _ "order" "genus" (by decide),
        dictGet_del_ne _ "class" "genus" (by decide)]

/-- Witness for C4 at a concrete resolved record and concrete genus pair. -/
theorem merge_builds_hierarchy_and_strips_witness :
    hierHasPath (mergeRecord [] [] (mkRecord 1 accData)).2
      (getStr (mkRecord 1 accData) "class" "Unknown")
      (getStr (mkRecord 1 accData) "order" "Unknown")
      (getStr (mkRecord 1 accData) "family" "Unknown")
      (getStr (mkRecord 1 accData) "genus" "Unknown") = true ∧
    hierInsert (hierInsert [] "c" "o" "f" "g1") "c" "o" "f" "g2"
      = [("c", [("o", [("f", ["g1", "g2"])])])] ∧
    dictHasKey (stripRecord (mkRecord 1 accData)) "family" = false := by
  have h := merge_builds_hierarchy_and_strips [] [] (mkRecord 1 accData)
    "x" "x" "x" "x" "c" "o" "f" "g1" "g2" (by decide)
  exact ⟨h.1, h.2.2.1, h.2.2.2.2.1⟩

/-- C5: every successful merge preserves the invariant that the number of
mid-run flushes equals the merge count divided by 50 (so a flush happens
exactly at every 50th merged record of the run), a non-aborted non-empty
batch ends with exactly one more, unconditional, flush of the cumulative
state, and a concrete run of 51 valid records produces exactly 2 flushes
whose species lists are cumulative: 50 then 51 records, the first a
prefix of the second, the last flush carrying the final state. -/
theorem flush_every_50_and_at_end :
    (∀ (iucn : String → Option ConsInfo) (occ : Nat → List Dict)
        (st : RunState) (t : Nat) (x : Option Dict),
      st.flushes.length = st.j / 50 →
      (processResolved iucn occ st t x).1.flushes.length
        = (processResolved iucn occ st t x).1.j / 50) ∧
    (∀ (api : Api) (iucn : String → Option ConsInfo) (occ : Nat → List Dict)
        (ids : List Nat) (sd0 : List Dict) (h0 : Hier),
      ids ≠ [] → (bryMain api iucn occ ids sd0 h0).2 = false →
      (bryMain api iucn occ ids sd0 h0).1.flushes.length
        = (bryMain api iucn occ ids sd0 h0).1.j / 50 + 1 ∧
      (bryMain api iucn occ ids sd0 h0).1.flushes.getLast?
        = some ((bryMain api iucn occ ids sd0 h0).1.species_data,
                (bryMain api iucn occ ids sd0 h0).1.hierarchy)) ∧
    (bryMain api51 iucn0 occ0 ids51 [] []).2 = false ∧
    (bryMain api51 iucn0 occ0 ids51 [] []).1.j = 51 ∧
    ((bryMain api51 iucn0 occ0 ids51 [] []).1.flushes.map (fun fl => fl.1.length))
      = [50, 51] ∧
    ((bryMain api51 iucn0 occ0 ids51 [] []).1.flushes.get? 0).map Prod.fst
      = some ((bryMain api51 iucn0 occ0 ids51 [] []).1.species_data.take 50) := by
  refine ⟨processResolved_flush_inv, ?_, by decide, by decide, by decide, by decide⟩
  intro api iucn occ ids sd0 h0 hne hok
  have hne' : ids.isEmpty = false := by
    cases ids
    · exact absurd rfl hne
    · rfl
  unfold bryMain at hok ⊢
  simp only [hne', Bool.false_eq_true, if_false] at hok ⊢
  cases hr : (driverLoop api iucn occ
      { visited := [], species_data := sd0, hierarchy := h0,
        consVar := none, j := 0, flushes := [] } (ids.take 300)).2 with
  | true => rw [hr] at hok; simp at hok
  | false =>
    simp only [Bool.false_eq_true, if_false]
    constructor
    · show ((driverLoop api iucn occ _ (ids.take 300)).1.flushes
        ++ [((driverLoop api iucn occ _ (ids.take 300)).1.species_data,
             (driverLoop api iucn occ _ (ids.take 300)).1.hierarchy)]).length = _
      rw [List.length_append]
      rw [driverLoop_flush_inv api iucn occ (ids.take 300) _ (by simp)]
      rfl
    · exact List.getLast?_concat _

/-- Witness for C5: the 51-record run satisfies the end-of-batch flush
count formula. -/
theorem flush_every_50_and_at_end_witness :
    (bryMain api51 iucn0 occ0 ids51 [] []).1.flushes.length
      = (bryMain api51 iucn0 occ0 ids51 [] []).1.j / 50 + 1 :=
  (flush_every_50_and_at_end.2.1 api51 iucn0 occ0 ids51 [] []
    (by decide) (by decide)).1

/-- C6: the discovered year of a publication citation is the 4-digit
token anchored at the end of the string if there is one, else the first
parenthesized digit run, else "Unknown"; the resolver stores exactly this
parse in the record's discovered field; the three specimen citations
parse as specified. -/
theorem discovered_year_parse :
    (∀ published : String,
      parseDiscovered published =
        match endYear published with
        | some y => y
        | none => (findParenDigits published.toList).getD "Unknown") ∧
    (∀ (taxon_id : Nat) (data : GbifData),
      dictGet (mkRecord taxon_id data) "discovered"
        = some (Val.s (parseDiscovered (data.publishedIn.getD "Unknown")))) ∧
    parseDiscovered "Hedw., Sp. Musc. Frond.: 1801" = "1801" ∧
    parseDiscovered "Müll. Hal. (1850)" = "1850" ∧
    parseDiscovered "Anonymous, unpublished" = "Unknown" := by
  refine ⟨?_, fun taxon_id data => rfl, by decide, by decide, by decide⟩
  intro published
  unfold parseDiscovered
  cases h : endYear published with
  | some y => rfl
  | none =>
    cases h2 : findParenDigits published.toList with
    | some d => rfl
    | none => rfl

/-- C7: the species filter rejects a record exactly when its scientific
name starts with "SH" or contains a digit; the three specimen names
classify as specified. -/
theorem species_filter_rejects_placeholders :
    (∀ si : Dict, is_valid_species si = false ↔
      (pyStartsWith (getStr si "scientificName" "") "SH" = true ∨
       ∃ ch ∈ (getStr si "scientificName" "").toList, ch.isDigit = true)) ∧
    is_valid_species [("scientificName", Val.s "SH123456")] = false ∧
    is_valid_species [("scientificName", Val.s "Polytrichum commune")] = true ∧
    is_valid_species [("scientificName", Val.s "Sphagnum sp. 2")] = false := by
  refine ⟨?_, by decide, by decide, by decide⟩
  intro si
  unfold is_valid_species
  cases hsw : pyStartsWith (getStr si "scientificName" "") "SH" <;>
    simp [hsw, List.any_eq_true]

/-- C8: habitat extraction returns exactly the deduplicated set of
non-"Unknown" country values of the occurrence list, and membership in
the result is invariant under any permutation of the input (the function
is pure, so running it twice on the same list trivially yields the same
set). -/
theorem habitats_dedup_and_order_free
    (occurrences occurrences' : List Dict)
    (hperm : occurrences.Perm occurrences') :
    (∀ x, x ∈ extract_habitats occurrences ↔
      x ≠ "Unknown" ∧ ∃ o ∈ occurrences, getStr o "country" "Unknown" = x) ∧
    (extract_habitats occurrences).Nodup ∧
    (∀ x, x ∈ extract_habitats occurrences ↔ x ∈ extract_habitats occurrences') := by
  refine ⟨mem_extract_habitats occurrences, nodup_extract_habitats occurrences, ?_⟩
  intro x
  rw [mem_extract_habitats, mem_extract_habitats]
  constructor
  · rintro ⟨hne, o, ho, hx⟩
    exact ⟨hne, o, hperm.mem_iff.mp ho, hx⟩
  · rintro ⟨hne, o, ho, hx⟩
    exact ⟨hne, o, hperm.mem_iff.mpr ho, hx⟩

/-- Concrete occurrence lists: a permutation pair with a duplicate and an
unknown country. -/
def occsW : List Dict :=
  [[("country", Val.s "France")], [("country", Val.s "Peru")],
   [("country", Val.s "France")], [("x", Val.s "y")]]

def occsW' : List Dict :=
  [[("x", Val.s "y")], [("country", Val.s "France")],
   [("country", Val.s "Peru")], [("country", Val.s "France")]]

/-- Witness for C8 at a concrete permutation pair. -/
theorem habitats_dedup_and_order_free_witness :
    (extract_habitats occsW).Nodup ∧
    ("France" ∈ extract_habitats occsW ↔ "France" ∈ extract_habitats occsW') :=
  ⟨(habitats_dedup_and_order_free occsW occsW' (by decide)).2.1,
   (habitats_dedup_and_order_free occsW occsW' (by decide)).2.2 "France"⟩

theorem dictHasKey_update_false (other : Dict) :
    ∀ (m : Dict) (k : String), dictHasKey m k = false →
      other.all (fun p => p.1 != k) = true →
      dictHasKey (dictUpdate m other) k = false := by
  induction other with
  | nil => intro m k hm _; exact hm
  | cons q t ih =>
    intro m k hm ho
    rw [List.all_cons, Bool.and_eq_true] at ho
    have hq : q.1 ≠ k := by simpa using ho.1
    have hset : dictHasKey (dictSet m q.1 q.2) k = false := by
      rw [Bool.eq_false_iff]
      intro hx
      rcases (dictHasKey_set m q.1 k q.2).mp hx with h | h
      · exact hq h.symm
      · rw [hm] at h; cases h
    exact ih (dictSet m q.1 q.2) k hset ho.2

/-- C9: the resolver always gives its records a vernacularName field; on
the caller-side merge of enricher data, a record without a vernacularName
key has the enricher's common name deleted before the update (so the
merged record still has none), while a record that has one gets it
overwritten by the enricher's common name. -/
theorem vernacular_merge_rule (si : Dict) (ci : ConsInfo)
    (taxon_id : Nat) (data : GbifData) :
    dictHasKey (mkRecord taxon_id data) "vernacularName" = true ∧
    (dictHasKey si "vernacularName" = false →
      dictHasKey (mergeConservation si (some (consToDict ci)))
        "vernacularName" = false) ∧
    (dictHasKey si "vernacularName" = true →
      dictGet (mergeConservation si (some (consToDict ci))) "vernacularName"
        = some (Val.s ci.vernacularName)) := by
  refine ⟨rfl, ?_, ?_⟩
  · intro h
    unfold mergeConservation
    have hcond : (!(dictHasKey si "vernacularName")
        && pyTruthy (some (consToDict ci))) = true := by
      rw [h]
      rfl
    simp only [hcond, if_true, Option.map_some']
    have htru : pyTruthy (some (dictDel (consToDict ci) "vernacularName")) = true := rfl
    simp only [htru, if_true, Option.getD_some]
    exact dictHasKey_update_false _ si "vernacularName" h rfl
  · intro h
    unfold mergeConservation
    have hcond : (!(dictHasKey si "vernacularName")
        && pyTruthy (some (consToDict ci))) = false := by
      rw [h]
      rfl
    simp only [hcond, Bool.false_eq_true, if_false]
    have htru : pyTruthy (some (consToDict ci)) = true := rfl
    simp only [htru, if_true, Option.getD_some]
    show dictGet (dictUpdate si (consToDict ci)) "vernacularName" = _
    simp only [dictUpdate, consToDict, List.foldl_cons, List.foldl_nil]
    exact dictGet_set_self _ "vernacularName" (Val.s ci.vernacularName)

/-- A concrete conservation result. -/
def ciW : ConsInfo :=
  { assessment_url := "u", assessment_year := "2020", possibly_extinct := false,
    possibly_extinct_in_the_wild := false, authority := "auth",
    vernacularName := "moss" }

/-- Witness for C9 at a record with and a record without a vernacularName
key. -/
theorem vernacular_merge_rule_witness :
    dictHasKey (mergeConservation [("genus", Val.s "g")] (some (consToDict ciW)))
      "vernacularName" = false ∧
    dictGet (mergeConservation [("vernacularName", Val.s "v")]
      (some (consToDict ciW))) "vernacularName" = some (Val.s ciW.vernacularName) :=
  ⟨(vernacular_merge_rule [("genus", Val.s "g")] ciW 1 accData).2.1 (by decide),
   (vernacular_merge_rule [("vernacularName", Val.s "v")] ciW 1 accData).2.2
     (by decide)⟩

/-- A complete accepted record whose scientific name has only two
tokens. -/
def biData : GbifData :=
  { accData with scientificName := some "Aa bb" }

def apiC10 : Api := [(1, accData), (2, biData)]

/-- An IUCN oracle that always finds an assessment. -/
def iucnW : String → Option ConsInfo := fun _ => some ciW

/-- Counterexample to C10 as stated: in the batch [1, 2], taxon 2 is the
first valid resolved record of the run whose scientific name has two or
fewer whitespace-separated tokens, yet the driver does not fail with an
unbound-variable error on it — the run completes, because item 1 (three
tokens) had already assigned the conservation variable — and item 2's
stored record silently carries the conservation data left over from
item 1's enrichment. -/
theorem conservation_unbound_counterexample :
    (pyTokens "Aa bb").length ≤ 2 ∧
    is_valid_species (mkRecord 2 biData) = true ∧
    (bryMain apiC10 iucnW occ0 [1, 2] [] []).2 = false ∧
    ((bryMain apiC10 iucnW occ0 [1, 2] [] []).1.species_data.get? 1).map
      (fun d => dictGet d "assessment_url") = some (some (Val.s "u")) :=
  ⟨by decide, by decide, by decide, by decide⟩

/-- C10 (amended): for a valid resolved record whose name has two or
fewer tokens, the conservation variable is not assigned (the enricher is
not consulted at all for the item); if the variable is still unassigned —
no earlier item of the run assigned it — the iteration raises an
unbound-variable error, aborting the batch; otherwise the iteration
completes with the leftover value still bound, which the merge then
uses. -/
theorem conservation_leftover_amended
    (iucn iucn' : String → Option ConsInfo) (occ : Nat → List Dict)
    (st : RunState) (t : Nat) (si : Dict)
    (hvalid : is_valid_species si = true)
    (htok : ¬ (pyTokens (getStr si "scientificName" "Unknown")).length > 2) :
    processResolved iucn occ st t (some si)
      = processResolved iucn' occ st t (some si) ∧
    (st.consVar = none → processResolved iucn occ st t (some si) = (st, true)) ∧
    (∀ cd, st.consVar = some cd →
      (processResolved iucn occ st t (some si)).2 = false ∧
      (processResolved iucn occ st t (some si)).1.consVar = some cd) := by
  have hval' : (!(is_valid_species si)) = false := by rw [hvalid]; rfl
  refine ⟨?_, ?_, ?_⟩
  · simp only [processResolved, hval', Bool.false_eq_true, if_false, if_neg htok]
  · intro hc
    simp only [processResolved, hval', Bool.false_eq_true, if_false, if_neg htok, hc]
  · intro cd hc
    simp only [processResolved, hval', Bool.false_eq_true, if_false, if_neg htok, hc]
    constructor
    · split
      · rfl
      · rfl
    · split
      · rfl
      · rfl

/-- A run state in which an earlier item has already assigned the
conservation variable. -/
def stW : RunState :=
  { visited := [], species_data := [], hierarchy := [],
    consVar := some (some ciW), j := 0, flushes := [] }

/-- Witness for the amended C10: with a leftover conservation value
bound, a valid two-token item completes without error and keeps the
leftover value bound. -/
theorem conservation_leftover_amended_witness :
    (processResolved iucnW occ0 stW 2 (some (mkRecord 2 biData))).2 = false ∧
    (processResolved iucnW occ0 stW 2 (some (mkRecord 2 biData))).1.consVar
      = some (some ciW) :=
  (conservation_leftover_amended iucnW iucn0 occ0 stW 2 (mkRecord 2 biData)
    (by decide) (by decide)).2.2 (some ciW) rfl

end Bryology
